import Mathlib

/-!
Verification development for the Excel-Formatter repository.

The repository is a browser tool that reshapes pasted or uploaded tabular
data into fixed-schema rows, groups them into named worksheets and exports
a multi-sheet spreadsheet.  This file gives a shallow embedding of its
data-shaping pipeline (line tokenizer, field extractor, record builder,
grouping engine, sequence validator, sheet collection, export) and proves
or refutes the frozen specification claims about it.

The repository contains near-duplicate pipeline variants.  Definitions
suffixed `New` are translated from the unified pipeline component
(`src/unnamed/part_001`), definitions suffixed `Old` from
`src/pages/ExcelGeneratorWithUpload.tsx`, and definitions suffixed `SE`
from `src/pages/SerialExtractor.tsx`.

JavaScript strings are modelled as `List Char`; JavaScript numbers are
modelled as `Rat` (the quantities compared by the pipeline are small exact
decimals), with `none : Option Rat` standing for `NaN`.  The decimal
subset of JavaScript string-to-number conversion is modelled (optional
sign, integer digits, optional fraction); hex, exponent and Infinity
forms are outside the inputs this pipeline handles.
-/

namespace ExcelFmt

/-! ## JavaScript string primitives -/

/-- JavaScript strings, modelled as lists of characters. -/
abbrev JSStr := List Char

/-- Convert a Lean string literal into the `JSStr` model. -/
def js (s : String) : JSStr := s.data

/-- Whitespace recognised by `String.prototype.trim` (the forms occurring
in this pipeline's inputs). -/
def isWS (c : Char) : Bool :=
  (c == ' ') || (c == '\t') || (c == '\n') || (c == '\r')

/-- Model of `s.trim()`: drop leading and trailing whitespace. -/
def jsTrim (s : JSStr) : JSStr :=
  ((s.dropWhile isWS).reverse.dropWhile isWS).reverse

/-- Loop of `splitOnChar`, accumulating the current field reversed. -/
def splitOnCharAux (sep : Char) : JSStr → JSStr → List JSStr
  | [], acc => [acc.reverse]
  | c :: cs, acc =>
      if c == sep then acc.reverse :: splitOnCharAux sep cs []
      else splitOnCharAux sep cs (c :: acc)

/-- Model of `s.split(sep)` for a one-character separator: the empty
string splits to `[""]`, exactly as in JavaScript. -/
def splitOnChar (sep : Char) (s : JSStr) : List JSStr :=
  splitOnCharAux sep s []

/-- Model of `s.includes(c)` for a one-character needle. -/
def containsChar (sep : Char) (s : JSStr) : Bool :=
  s.any (fun c => c == sep)

/-! ## Decimal rendering of naturals (JS number-to-string for suffixes) -/

/-- Little-endian digit values of `n`, with explicit fuel (`fuel ≥ n`
suffices, see `ofDigitsVals_natDigitsRev`). -/
def natDigitsRev (fuel n : Nat) : List Nat :=
  match fuel with
  | 0 => []
  | f + 1 => if n = 0 then [] else n % 10 :: natDigitsRev f (n / 10)

/-- Little-endian digit values of `n`. -/
def natDigitsVals (n : Nat) : List Nat := natDigitsRev n n

/-- Decimal rendering of a natural number, modelling the JavaScript
template interpolation of an integer. -/
def natToChars (n : Nat) : JSStr :=
  if n = 0 then js "0" else ((natDigitsVals n).map Nat.digitChar).reverse

/-! ## Decimal string-to-number parsing (JS `Number(...)` on strings) -/

/-- Value of a digit character. -/
def digitVal (c : Char) : Nat := c.toNat - 48

/-- Value of a string of decimal digits, most significant first. -/
def digitsVal (cs : JSStr) : Nat :=
  cs.foldl (fun a c => a * 10 + digitVal c) 0

/-- All characters are ASCII decimal digits. -/
def allDigits (cs : JSStr) : Bool := cs.all Char.isDigit

/-- Parse an unsigned decimal numeral: digits, optionally around a single
decimal point; at least one digit must be present.  `none` models `NaN`. -/
def parseUnsigned (cs : JSStr) : Option Rat :=
  let intp := cs.takeWhile (fun c => c != '.')
  match cs.dropWhile (fun c => c != '.') with
  | [] =>
      if intp.isEmpty then none
      else if allDigits intp then some ((digitsVal intp : Nat) : Rat)
      else none
  | _ :: frac =>
      if intp.isEmpty && frac.isEmpty then none
      else if frac.any (fun c => c == '.') then none
      else if allDigits intp && allDigits frac then
        some ((digitsVal intp : Nat) + ((digitsVal frac : Nat) : Rat) / ((10 : Rat) ^ frac.length))
      else none

/-- Parse an optionally signed decimal numeral. -/
def parseSigned (cs : JSStr) : Option Rat :=
  match cs with
  | '-' :: rest => (parseUnsigned rest).map (fun q => -q)
  | '+' :: rest => parseUnsigned rest
  | _ => parseUnsigned cs

/-- JavaScript `Number(s)` for a string `s` (decimal subset): whitespace
is trimmed, the empty string converts to `0`, anything unparseable is
`NaN` (`none`). -/
def jsStringToNumber (s : JSStr) : Option Rat :=
  let t := jsTrim s
  if t.isEmpty then some 0 else parseSigned t

/-! ## Cell values -/

/-- A cell value as seen by the pipeline: a string, a number, or the
JavaScript `undefined` produced by an out-of-range or missing lookup. -/
inductive CellValue where
  | str (s : JSStr)
  | num (q : Rat)
  | undef
deriving DecidableEq, Repr

/-- Decimal rendering of a rational, standing in for JavaScript
number-to-string conversion; only its non-blankness matters here. -/
def ratToChars (q : Rat) : JSStr := (toString q).data

/-- JavaScript `String(v)` on a cell value. -/
def jsStringOfCell : CellValue → JSStr
  | CellValue.str s => s
  | CellValue.num q => ratToChars q
  | CellValue.undef => js "undefined"

/-- A parsed row of an uploaded table: a mapping from column-header
string to cell value. -/
abbrev DataRow := List (JSStr × CellValue)

/-- Field lookup in a parsed row; a missing key yields `undefined`,
exactly as JavaScript property access does. -/
def getField : DataRow → JSStr → CellValue
  | [], _ => CellValue.undef
  | (k, v) :: t, h => if k = h then v else getField t h

/-! ## Output records (`RowData`) and sheets (`SheetData`) -/

/-- The fixed eleven-field output structure for each exported row.  Field
names map to the source object keys: `availSerial` is
`Availability, Serial No.`, `serialNo` is `Serial No.`, and so on. -/
structure RowData where
  availSerial : JSStr
  serialNo : JSStr
  availLot : JSStr
  lotNo : JSStr
  availPackage : JSStr
  packageNo : JSStr
  qtyBase : Nat
  qtyToHandle : Nat
  applToItemEntry : Nat
  licenseKey : JSStr
  binCode : JSStr
deriving DecidableEq, Repr

/-- One sheet held in state: a name plus its ordered records. -/
structure SheetData where
  sheetName : JSStr
  data : List RowData
deriving DecidableEq, Repr

/-- Helper `buildRowFromSerial` of both upload pipelines: build a single
`RowData` object from a serial number. -/
def buildRowFromSerial (serial : JSStr) : RowData :=
  { availSerial := js "Yes"
    serialNo := serial
    availLot := js "Yes"
    lotNo := js ""
    availPackage := js "Yes"
    packageNo := js ""
    qtyBase := 1
    qtyToHandle := 1
    applToItemEntry := 0
    licenseKey := js ""
    binCode := js "" }

/-! ## Sequence validator -/

/-- Helper `getSequence`: the character-type pattern of a string, mapping
each ASCII digit to `N` and every other character to `L`
(`isNaN(parseInt(char))` on a single character holds exactly for
non-digits). -/
def getSequence (s : JSStr) : JSStr :=
  s.map (fun ch => if ch.isDigit then 'N' else 'L')

/-- Reason attached to a validation diagnostic. -/
inductive Reason where
  | lengthMismatch
  | sequenceMismatch
deriving DecidableEq, Repr

/-- A validation diagnostic (`MismatchedSerial` in the source). -/
structure Mismatch where
  group : JSStr
  serial : JSStr
  reason : Reason
deriving DecidableEq, Repr

/-- The validation loop over one group's serials: the first value is the
reference; each later value gets a length check, then a shape check.
Translated from the `for` loop of `processData` (identical in both
upload pipeline variants). -/
def validateGroup (gk : JSStr) (serials : List JSStr) : List Mismatch :=
  match serials with
  | [] => []
  | master :: rest =>
      rest.foldl (fun errs cur =>
        if cur.length ≠ master.length then
          errs ++ [⟨gk, cur, Reason.lengthMismatch⟩]
        else if getSequence cur ≠ getSequence master then
          errs ++ [⟨gk, cur, Reason.sequenceMismatch⟩]
        else errs) []

/-! ## Quantity guard -/

/-- Helper `normalizeQty` of the unified pipeline: numbers pass through;
anything else is stringified (`undefined` becomes the empty string),
trimmed, the empty string becomes `NaN`, and the rest is parsed with
`Number`. -/
def normalizeQty : CellValue → Option Rat
  | CellValue.num q => some q
  | CellValue.undef => none
  | CellValue.str s =>
      let v := jsTrim s
      if v.isEmpty then none else jsStringToNumber v

/-- Quantity guard of the unified pipeline:
`!Number.isNaN(qn) && qn <= 1` for `qn = normalizeQty(row[qtyCol])`. -/
def retainQtyNew (q : CellValue) : Bool :=
  match normalizeQty q with
  | none => false
  | some r => decide (r ≤ 1)

/-- Quantity guard of `ExcelGeneratorWithUpload.tsx`:
`row[selectedQtyCol] <= 1` under JavaScript coercion.  A string operand
is converted with `Number` (so the empty string coerces to `0`), and any
comparison involving `NaN` — including `undefined <= 1` — is false. -/
def retainQtyOld (q : CellValue) : Bool :=
  match q with
  | CellValue.num r => decide (r ≤ 1)
  | CellValue.undef => false
  | CellValue.str s =>
      match jsStringToNumber s with
      | none => false
      | some r => decide (r ≤ 1)

/-! ## Grouping engines -/

/-- Processing mode of the upload pipelines. -/
inductive Mode where
  | invoice
  | consolidate
deriving DecidableEq, Repr

/-- A cell is absent or blank after trimming:
`v == null || String(v).trim() === ""`. -/
def blankCell : CellValue → Bool
  | CellValue.undef => true
  | CellValue.str s => (jsTrim s).isEmpty
  | CellValue.num q => (jsTrim (ratToChars q)).isEmpty

/-- Skip condition of the unified pipeline's grouping reduce: skip when
the part cell is absent/blank, the serial cell is absent/blank, or, in
invoice mode, the invoice cell is absent/blank. -/
def skipRowNew (mode : Mode) (partCol invCol serialCol : JSStr) (row : DataRow) : Bool :=
  blankCell (getField row partCol) ||
  blankCell (getField row serialCol) ||
  (match mode with
   | Mode.invoice => blankCell (getField row invCol)
   | Mode.consolidate => false)

/-- Group key of the unified pipeline. -/
def groupKeyNew (mode : Mode) (partCol invCol : JSStr) (row : DataRow) : JSStr :=
  match mode with
  | Mode.invoice =>
      jsStringOfCell (getField row partCol) ++ js " - " ++ jsStringOfCell (getField row invCol)
  | Mode.consolidate => jsStringOfCell (getField row partCol)

/-- Append a row to the entry of key `k` of the accumulator, creating the
entry at the end if absent — the behaviour of `acc[key].push(row)` on a
JavaScript object enumerated in insertion order. -/
def insertGrouped (acc : List (JSStr × List DataRow)) (k : JSStr) (row : DataRow) :
    List (JSStr × List DataRow) :=
  match acc with
  | [] => [(k, [row])]
  | (k₁, rs) :: t =>
      if k₁ = k then (k₁, rs ++ [row]) :: t else (k₁, rs) :: insertGrouped t k row

/-- The grouping reduce of the unified pipeline. -/
def groupLoopNew (mode : Mode) (partCol invCol serialCol : JSStr)
    (acc : List (JSStr × List DataRow)) : List DataRow → List (JSStr × List DataRow)
  | [] => acc
  | row :: rest =>
      if skipRowNew mode partCol invCol serialCol row then
        groupLoopNew mode partCol invCol serialCol acc rest
      else
        groupLoopNew mode partCol invCol serialCol
          (insertGrouped acc (groupKeyNew mode partCol invCol row) row) rest

/-- Grouping engine of the unified pipeline. -/
def groupRowsNew (mode : Mode) (partCol invCol serialCol : JSStr)
    (rows : List DataRow) : List (JSStr × List DataRow) :=
  groupLoopNew mode partCol invCol serialCol [] rows

/-- Group key of `ExcelGeneratorWithUpload.tsx`'s `getGroupKey`: in
consolidate mode the raw part value is returned (even `undefined`, which
is not `=== null` and later stringifies to `"undefined"`); in invoice
mode the row is skipped only when the part or invoice value is
`undefined`.  No blank-after-trim checks are made. -/
def groupKeyOld (mode : Mode) (partCol invCol : JSStr) (row : DataRow) : Option JSStr :=
  match mode with
  | Mode.consolidate => some (jsStringOfCell (getField row partCol))
  | Mode.invoice =>
      match getField row partCol, getField row invCol with
      | CellValue.undef, _ => none
      | _, CellValue.undef => none
      | p, i => some (jsStringOfCell p ++ js " - " ++ jsStringOfCell i)

/-- The grouping reduce of `ExcelGeneratorWithUpload.tsx`. -/
def groupLoopOld (mode : Mode) (partCol invCol : JSStr)
    (acc : List (JSStr × List DataRow)) : List DataRow → List (JSStr × List DataRow)
  | [] => acc
  | row :: rest =>
      match groupKeyOld mode partCol invCol row with
      | none => groupLoopOld mode partCol invCol acc rest
      | some k => groupLoopOld mode partCol invCol (insertGrouped acc k row) rest

/-- Grouping engine of `ExcelGeneratorWithUpload.tsx`. -/
def groupRowsOld (mode : Mode) (partCol invCol : JSStr)
    (rows : List DataRow) : List (JSStr × List DataRow) :=
  groupLoopOld mode partCol invCol [] rows

/-! ## Per-group serial extraction and sheet production -/

/-- `rows.filter(row => ...)` with the unified pipeline's quantity guard. -/
def validRowsNew (qtyCol : JSStr) (rows : List DataRow) : List DataRow :=
  rows.filter (fun r => retainQtyNew (getField r qtyCol))

/-- `rows.filter(row => row[qtyCol] <= 1)` of the older pipeline. -/
def validRowsOld (qtyCol : JSStr) (rows : List DataRow) : List DataRow :=
  rows.filter (fun r => retainQtyOld (getField r qtyCol))

/-- Serials of one group in the unified pipeline:
`validRows.map(row => String(row[serialCol])).filter(v => v.trim().length > 0)`. -/
def serialsOfGroupNew (qtyCol serialCol : JSStr) (rows : List DataRow) : List JSStr :=
  ((validRowsNew qtyCol rows).map (fun r => jsStringOfCell (getField r serialCol))).filter
    (fun v => decide (0 < (jsTrim v).length))

/-- Serials of one group in the older pipeline:
`validRows.map(row => String(row[serialCol])).filter(Boolean)` — only the
empty string is falsy. -/
def serialsOfGroupOld (qtyCol serialCol : JSStr) (rows : List DataRow) : List JSStr :=
  ((validRowsOld qtyCol rows).map (fun r => jsStringOfCell (getField r serialCol))).filter
    (fun v => !v.isEmpty)

/-- Accumulated result of processing the groups. -/
structure ProcessResult where
  sheets : List SheetData
  errors : List Mismatch
deriving DecidableEq, Repr

/-- One step of the `Object.entries(groupedData).forEach` loop of the
unified pipeline: extract the group's serials, validate them when the
flag is set and the group has at least two values, and push a sheet when
any serial survived. -/
def stepGroupNew (validate : Bool) (qtyCol serialCol : JSStr)
    (res : ProcessResult) (g : JSStr × List DataRow) : ProcessResult :=
  let serials := serialsOfGroupNew qtyCol serialCol g.2
  if 0 < serials.length then
    let errs := if validate ∧ 1 < serials.length then validateGroup g.1 serials else []
    ⟨res.sheets ++ [⟨g.1, serials.map buildRowFromSerial⟩], res.errors ++ errs⟩
  else res

/-- One step of the group loop of `ExcelGeneratorWithUpload.tsx`. -/
def stepGroupOld (validate : Bool) (qtyCol serialCol : JSStr)
    (res : ProcessResult) (g : JSStr × List DataRow) : ProcessResult :=
  let serials := serialsOfGroupOld qtyCol serialCol g.2
  if 0 < serials.length then
    let errs := if validate ∧ 1 < serials.length then validateGroup g.1 serials else []
    ⟨res.sheets ++ [⟨g.1, serials.map buildRowFromSerial⟩], res.errors ++ errs⟩
  else res

/-- Core of the unified pipeline's `processData`: group the parsed rows,
then process each group into a candidate sheet plus diagnostics. -/
def processDataNew (mode : Mode) (partCol invCol qtyCol serialCol : JSStr)
    (validate : Bool) (parsedRows : List DataRow) : ProcessResult :=
  (groupRowsNew mode partCol invCol serialCol parsedRows).foldl
    (stepGroupNew validate qtyCol serialCol) ⟨[], []⟩

/-- Core of `ExcelGeneratorWithUpload.tsx`'s `processData`. -/
def processDataOld (mode : Mode) (partCol invCol qtyCol serialCol : JSStr)
    (validate : Bool) (parsedRows : List DataRow) : ProcessResult :=
  (groupRowsOld mode partCol invCol parsedRows).foldl
    (stepGroupOld validate qtyCol serialCol) ⟨[], []⟩

/-! ## Sheet collection: append with duplicate-name disambiguation -/

/-- Candidate name number `n` for a base name: the base itself for
`n = 0`, otherwise the base suffixed with an integer in parentheses. -/
def nameWithSuffix (base : JSStr) (n : Nat) : JSStr :=
  if n = 0 then base else base ++ js " (" ++ natToChars n ++ js ")"

/-- The `while (existingNames.has(name))` loop of the unified pipeline's
append, with explicit fuel: try candidate numbers upward from `n` until
one is free.  Fuel `existingNames.length + 1` always suffices because
the candidates are pairwise distinct. -/
def firstFreeSuffix (existing : List JSStr) (base : JSStr) : Nat → Nat → Nat
  | 0, n => n
  | fuel + 1, n =>
      if nameWithSuffix base n ∈ existing then
        firstFreeSuffix existing base fuel (n + 1)
      else n

/-- Disambiguated name assigned by the unified pipeline's append. -/
def uniqueSheetName (existing : List JSStr) (base : JSStr) : JSStr :=
  nameWithSuffix base (firstFreeSuffix existing base (existing.length + 1) 0)

/-- `finalSheets.map(...)` of the unified pipeline's append: give each new
sheet a disambiguated name and register it (`existingNames.add(name)`) so
later sheets of the same batch see it. -/
def uniquifySheets (existing : List JSStr) : List SheetData → List SheetData
  | [] => []
  | s :: rest =>
      let n := uniqueSheetName existing s.sheetName
      ⟨n, s.data⟩ :: uniquifySheets (n :: existing) rest

/-- Append of the unified pipeline:
`setSheetDataList(prev => [...prev, ...uniqued])`. -/
def appendSheetsUnique (prev finalSheets : List SheetData) : List SheetData :=
  prev ++ uniquifySheets (prev.map SheetData.sheetName) finalSheets

/-! ## Manual builder: tokenizer, field extractor, record builder -/

/-- `line.includes("\t") ? line.split("\t") : line.split(",")`. -/
def splitFields (line : JSStr) : List JSStr :=
  if containsChar '\t' line then splitOnChar '\t' line else splitOnChar ',' line

/-- `rawText.split("\n").filter(line => line.trim() !== "")`. -/
def splitLines (rawText : JSStr) : List JSStr :=
  (splitOnChar '\n' rawText).filter (fun l => !(jsTrim l).isEmpty)

/-- `hasHeader ? lines.slice(1) : lines`. -/
def slicedLines (rawText : JSStr) (hasHeader : Bool) : List JSStr :=
  if hasHeader then (splitLines rawText).drop 1 else splitLines rawText

/-- The Raw Rows of the manual path: each retained line split into
fields. -/
def rawRows (rawText : JSStr) (hasHeader : Bool) : List (List JSStr) :=
  (slicedLines rawText hasHeader).map splitFields

/-- `cols[columnIndex]?.trim()`: the trimmed field, or `none` when the
index is out of range. -/
def extractEntry (line : JSStr) (i : Nat) : Option JSStr :=
  ((splitFields line).get? i).map jsTrim

/-- The entry list of `handleAddOrUpdateSheet`:
`slicedLines.map(line => cols[i]?.trim()).filter(Boolean)` — `undefined`
and the empty string are dropped. -/
def manualEntries (rawText : JSStr) (hasHeader : Bool) (i : Nat) : List JSStr :=
  (slicedLines rawText hasHeader).filterMap (fun line =>
    match extractEntry line i with
    | none => none
    | some v => if v.isEmpty then none else some v)

/-- `buildSheetData` of `SerialExtractor.tsx`: map each entry to an output
record, placing the value in the field selected by the mode flag. -/
def buildSheetData (lotOnlyMode : Bool) (entries : List JSStr) : List RowData :=
  entries.map (fun value =>
    { availSerial := js "Yes"
      serialNo := if lotOnlyMode then js "" else value
      availLot := js "Yes"
      lotNo := if lotOnlyMode then value else js ""
      availPackage := js "Yes"
      packageNo := js ""
      qtyBase := 1
      qtyToHandle := 1
      applToItemEntry := 0
      licenseKey := js ""
      binCode := js "" })

/-- `buildSheetDataFromText` of the unified pipeline:
`{...buildRowFromSerial(lot ? "" : value), "Lot No.": lot ? value : ""}`. -/
def buildSheetDataFromText (lotOnlyMode : Bool) (entries : List JSStr) : List RowData :=
  entries.map (fun value =>
    { buildRowFromSerial (if lotOnlyMode then js "" else value) with
        lotNo := if lotOnlyMode then value else js "" })

/-- Manual-builder state of `SerialExtractor.tsx` (the fields the claims
refer to). -/
structure ManualState where
  sheetDataList : List SheetData
  editingSheetIndex : Option Nat
deriving DecidableEq, Repr

/-- `handleAddOrUpdateSheet` of `SerialExtractor.tsx`: tokenize, extract,
bail out when no entries survive, and otherwise replace the edited sheet
or append the new sheet — with no name disambiguation. -/
def handleAddOrUpdateSheetSE (st : ManualState) (rawText sheetName : JSStr)
    (columnIndex : Nat) (lotOnlyMode hasHeader : Bool) : ManualState :=
  let entries := manualEntries rawText hasHeader columnIndex
  if entries.isEmpty then st
  else
    let finalSheetName :=
      if (jsTrim sheetName).isEmpty then
        js "Sheet " ++ natToChars (st.sheetDataList.length + 1)
      else jsTrim sheetName
    let newSheet : SheetData := ⟨finalSheetName, buildSheetData lotOnlyMode entries⟩
    match st.editingSheetIndex with
    | some i => ⟨st.sheetDataList.set i newSheet, none⟩
    | none => ⟨st.sheetDataList ++ [newSheet], none⟩

/-! ## Export -/

/-- `sheetName.substring(0, 31)`. -/
def jsSubstring (s : JSStr) (n : Nat) : JSStr := s.take n

/-- What `handleExport` hands to the spreadsheet writer: the summary
table and the per-sheet tables. -/
structure ExportResult where
  summary : List (JSStr × Nat)
  sheetTables : List (JSStr × List RowData)
deriving DecidableEq, Repr

/-- `handleExport` of both upload pipeline variants: refuse an empty
collection, otherwise build the summary rows
`{"Sheet Name": s.sheetName, "Serial Count": s.data.length}` and one
table per sheet under the name truncated to 31 characters. -/
def handleExport (list : List SheetData) : Option ExportResult :=
  if list.isEmpty then none
  else some
    { summary := list.map (fun s => (s.sheetName, s.data.length))
      sheetTables := list.map (fun s => (jsSubstring s.sheetName 31, s.data)) }

/-! ## Upload runs as state transformers -/

/-- Notification severity. -/
inductive NoteType where
  | success
  | error
  | warning
deriving DecidableEq, Repr

/-- A notification shown to the user. -/
structure Note where
  message : JSStr
  ntype : NoteType
deriving DecidableEq, Repr

/-- A workbook decoded by the external spreadsheet reader: named sheets,
each a grid of cells. -/
abbrev Grid := List (List CellValue)

/-- Named sheets of a decoded workbook. -/
structure Workbook where
  sheets : List (JSStr × Grid)
deriving Repr

/-- `cell !== null && cell !== ''` (an `undefined` cell passes both
strict inequalities). -/
def cellNonEmpty : CellValue → Bool
  | CellValue.str s => !s.isEmpty
  | CellValue.num _ => true
  | CellValue.undef => true

/-- `dataAsArray.filter(row => row && row.length > 0 && row.some(...))`. -/
def nonEmptyRows (g : Grid) : Grid :=
  g.filter (fun row => decide (0 < row.length) && row.any cellNonEmpty)

/-- `String(h ?? "").trim()`, with blank headers renamed `__EMPTY`. -/
def headerName (h : CellValue) : JSStr :=
  let name := jsTrim (match h with
    | CellValue.undef => js ""
    | CellValue.str s => s
    | CellValue.num q => ratToChars q)
  if name.isEmpty then js "__EMPTY" else name

/-- Duplicate-header disambiguation of the unified pipeline's
`parseSheet`: repeats of a name get `_1`, `_2`, ... suffixes, tracked in
a seen-count map. -/
def dedupHeadersAux : List CellValue → List (JSStr × Nat) → List JSStr
  | [], _ => []
  | h :: t, seen =>
      let name := headerName h
      let count := ((seen.find? (fun p => p.1 = name)).map Prod.snd).getD 0
      let outName := if count = 0 then name else name ++ js "_" ++ natToChars count
      outName :: dedupHeadersAux t ((name, count + 1) :: seen)

/-- `(cell === undefined || cell === null) ? "" : cell`. -/
def cellOrEmpty : Option CellValue → CellValue
  | some CellValue.undef => CellValue.str (js "")
  | some v => v
  | none => CellValue.str (js "")

/-- Row object construction of the unified pipeline's `parseSheet`:
every disambiguated header gets a key, missing cells become `""`. -/
def buildRowNew (headers : List JSStr) (rowArray : List CellValue) : DataRow :=
  headers.enum.map (fun p => (p.2, cellOrEmpty (rowArray.get? p.1)))

/-- Row object construction of `ExcelGeneratorWithUpload.tsx`'s
`parseSheet`: only string-typed headers produce keys, and missing cells
stay `undefined`. -/
def buildRowOld (headers : List CellValue) (rowArray : List CellValue) : DataRow :=
  headers.enum.filterMap (fun p =>
    match p.2 with
    | CellValue.str s => some (s, (rowArray.get? p.1).getD CellValue.undef)
    | _ => none)

/-- Grid parsing of the unified pipeline's `parseSheet`: keep non-empty
rows, fail with fewer than two of them, disambiguate the header row and
build one `DataRow` per data row. -/
def parseGridNew (g : Grid) : Except JSStr (List JSStr × List DataRow) :=
  match nonEmptyRows g with
  | [] => Except.error (js "Selected sheet appears to be empty or has no data rows.")
  | [_] => Except.error (js "Selected sheet appears to be empty or has no data rows.")
  | headerRow :: dataRows =>
      let uniqueHeaders := dedupHeadersAux headerRow []
      Except.ok (uniqueHeaders, dataRows.map (buildRowNew uniqueHeaders))

/-- Grid parsing of `ExcelGeneratorWithUpload.tsx`'s `parseSheet`. -/
def parseGridOld (g : Grid) : Except JSStr (List CellValue × List DataRow) :=
  match nonEmptyRows g with
  | [] => Except.error (js "Selected sheet appears to be empty or has no data rows.")
  | [_] => Except.error (js "Selected sheet appears to be empty or has no data rows.")
  | headerRow :: dataRows =>
      Except.ok (headerRow, dataRows.map (buildRowOld headerRow))

/-- State touched by the older upload pipeline (selection state and the
raw workbook handle are omitted; no claim mentions them). -/
structure UploadStateOld where
  sheetDataList : List SheetData
  fileHeaders : List CellValue
  parsedData : List DataRow
  note : Option Note
deriving Repr

/-- State touched by the unified upload pipeline. -/
structure UploadStateNew where
  sheetDataList : List SheetData
  fileHeaders : List JSStr
  parsedData : List DataRow
  note : Option Note
deriving Repr

/-- `parseSheet` of `ExcelGeneratorWithUpload.tsx` as a state update. -/
def parseSheetIntoOld (st : UploadStateOld) (g : Grid) : UploadStateOld :=
  match parseGridOld g with
  | Except.error msg =>
      { st with note := some ⟨js "Failed to parse sheet: " ++ msg, NoteType.error⟩ }
  | Except.ok (hs, rows) =>
      { st with fileHeaders := hs, parsedData := rows,
                note := some ⟨js "Sheet loaded. Please confirm column selections.",
                              NoteType.success⟩ }

/-- `parseSheet` of the unified pipeline as a state update. -/
def parseSheetIntoNew (st : UploadStateNew) (g : Grid) : UploadStateNew :=
  match parseGridNew g with
  | Except.error msg =>
      { st with note := some ⟨js "Failed to parse sheet: " ++ msg, NoteType.error⟩ }
  | Except.ok (hs, rows) =>
      { st with fileHeaders := hs, parsedData := rows,
                note := some ⟨js "Sheet loaded. Please confirm column selections.",
                              NoteType.success⟩ }

/-- `processUploadedFile` of `ExcelGeneratorWithUpload.tsx`: the run
begins by clearing the accumulated sheet list and the preview state, then
decodes the file (`Except.error` models a throwing `XLSX.read`) and
parses the sheet when the workbook has exactly one. -/
def runUploadOld (st : UploadStateOld) (fr : Except JSStr Workbook) : UploadStateOld :=
  let st₁ : UploadStateOld :=
    { st with sheetDataList := [], fileHeaders := [], parsedData := [], note := none }
  match fr with
  | Except.error msg =>
      { st₁ with note := some ⟨js "Failed to read file: " ++ msg, NoteType.error⟩ }
  | Except.ok wb =>
      match wb.sheets with
      | [(_, g)] => parseSheetIntoOld st₁ g
      | _ =>
          { st₁ with note := some ⟨js "Workbook loaded. Please select a sheet to process.",
                                   NoteType.success⟩ }

/-- `processUploadedFile` of the unified pipeline: previously created
sheets are preserved; only the preview-only state is reset. -/
def runUploadNew (st : UploadStateNew) (fr : Except JSStr Workbook) : UploadStateNew :=
  let st₁ : UploadStateNew :=
    { st with fileHeaders := [], parsedData := [], note := none }
  match fr with
  | Except.error msg =>
      { st₁ with note := some ⟨js "Failed to read file: " ++ msg, NoteType.error⟩ }
  | Except.ok wb =>
      match wb.sheets with
      | [(_, g)] => parseSheetIntoNew st₁ g
      | _ =>
          { st₁ with note := some ⟨js "Workbook loaded. Please select a sheet to process.",
                                   NoteType.success⟩ }

/-- The four column selections of the upload pipelines. -/
structure Mappings where
  partCol : JSStr
  invCol : JSStr
  qtyCol : JSStr
  serialCol : JSStr
deriving Repr

/-- Readiness check of the unified pipeline's `processData`. -/
def mappingsReady (mode : Mode) (m : Mappings) : Bool :=
  match mode with
  | Mode.invoice =>
      !m.partCol.isEmpty && !m.invCol.isEmpty && !m.qtyCol.isEmpty && !m.serialCol.isEmpty
  | Mode.consolidate =>
      !m.partCol.isEmpty && !m.qtyCol.isEmpty && !m.serialCol.isEmpty

/-- `verifyMappingsExistInHeaders` of the unified pipeline: the selected
headers missing from the file's headers. -/
def missingHeaders (mode : Mode) (m : Mappings) (headers : List JSStr) : List JSStr :=
  (match mode with
   | Mode.invoice => [m.partCol, m.invCol, m.qtyCol, m.serialCol]
   | Mode.consolidate => [m.partCol, m.qtyCol, m.serialCol]).filter
    (fun h => !headers.contains h)

/-- `processData` of the unified pipeline as a state update: three error
exits leave the sheet list untouched; on success the candidate sheets
are appended with disambiguated names, and a warning (not an error) is
raised when validation produced diagnostics. -/
def runProcessDataNew (st : UploadStateNew) (mode : Mode) (m : Mappings)
    (validate : Bool) : UploadStateNew :=
  if !mappingsReady mode m then
    { st with note := some ⟨js "Please select all required columns for the chosen mode.",
                            NoteType.error⟩ }
  else if st.parsedData.isEmpty then
    { st with note := some ⟨js "No data rows to process.", NoteType.error⟩ }
  else if !(missingHeaders mode m st.fileHeaders).isEmpty then
    { st with note := some ⟨js "Column(s) not found in file.", NoteType.error⟩ }
  else
    let res := processDataNew mode m.partCol m.invCol m.qtyCol m.serialCol validate st.parsedData
    let newList := appendSheetsUnique st.sheetDataList res.sheets
    if 0 < res.errors.length then
      { st with sheetDataList := newList,
                note := some ⟨js "Processing complete with validation warnings.",
                              NoteType.warning⟩ }
    else
      { st with sheetDataList := newList,
                note := some ⟨js "Sheets created successfully. All serials validated.",
                              NoteType.success⟩ }

/-- The note of a state reports an error. -/
def noteIsError (note : Option Note) : Bool :=
  match note with
  | some n => n.ntype == NoteType.error
  | none => false

/-! # Claim C1: the quantity guard -/

/-- C1, counterexample.  The claim says a row whose quantity field is the
empty string is excluded from every group's retained set.  In the
`ExcelGeneratorWithUpload.tsx` grouping engine, `row[qty] <= 1` coerces
the empty string to `0`, so the row is retained and its serial reaches
the produced sheet. -/
theorem c1_counterexample :
    retainQtyOld (CellValue.str (js "")) = true ∧
    validRowsOld (js "Qty")
        [[(js "Part", CellValue.str (js "P1")), (js "Qty", CellValue.str (js "")),
          (js "Serial", CellValue.str (js "SN1"))]] =
      [[(js "Part", CellValue.str (js "P1")), (js "Qty", CellValue.str (js "")),
        (js "Serial", CellValue.str (js "SN1"))]] ∧
    processDataOld Mode.consolidate (js "Part") (js "Inv") (js "Qty") (js "Serial") true
        [[(js "Part", CellValue.str (js "P1")), (js "Qty", CellValue.str (js "")),
          (js "Serial", CellValue.str (js "SN1"))]] =
      ⟨[⟨js "P1", [buildRowFromSerial (js "SN1")]⟩], []⟩ := by
  decide

/-- C1 (amended).  In the unified pipeline (`normalizeQty`), a string
quantity is retained exactly when it trims to a non-empty numeral of
value at most 1, a numeric quantity exactly when it is at most 1, and an
absent quantity never; in particular quantity 2 is excluded, quantity 1
is included and the empty quantity is excluded.  In the
`ExcelGeneratorWithUpload.tsx` variant the empty quantity is instead
retained (it coerces to 0). -/
theorem c1_quantity_guard :
    (∀ s : JSStr, retainQtyNew (CellValue.str s) = true ↔
        jsTrim s ≠ [] ∧ ∃ q : Rat, jsStringToNumber (jsTrim s) = some q ∧ q ≤ 1) ∧
    (∀ q : Rat, retainQtyNew (CellValue.num q) = true ↔ q ≤ 1) ∧
    retainQtyNew CellValue.undef = false ∧
    retainQtyNew (CellValue.str (js "2")) = false ∧
    retainQtyNew (CellValue.str (js "1")) = true ∧
    retainQtyNew (CellValue.str (js "")) = false ∧
    retainQtyOld (CellValue.str (js "")) = true := by
  refine ⟨?_, ?_, by decide, by decide, by decide, by decide, by decide⟩
  · intro s
    simp only [retainQtyNew, normalizeQty]
    by_cases h : (jsTrim s).isEmpty
    · simp [h, List.isEmpty_iff.mp h]
    · have h' : jsTrim s ≠ [] := by
        simpa [List.isEmpty_iff] using h
      rw [if_neg h]
      cases hn : jsStringToNumber (jsTrim s) with
      | none => simp [h']
      | some q => simp [h', decide_eq_true_iff]
  · intro q
    simp [retainQtyNew, normalizeQty, decide_eq_true_iff]

/-- C1, witness: the amended characterisation applied to the quantity
string with surrounding blanks, which is retained. -/
theorem c1_witness : retainQtyNew (CellValue.str (js " 1 ")) = true :=
  (c1_quantity_guard.1 (js " 1 ")).mpr ⟨by decide, 1, by decide, by decide⟩

/-! # Claim C2: grouping engine skip conditions -/

/-- Find the rows accumulated under one group key. -/
def lookupGroup : List (JSStr × List DataRow) → JSStr → Option (List DataRow)
  | [], _ => none
  | (k, rs) :: t, k₂ => if k = k₂ then some rs else lookupGroup t k₂

theorem lookupGroup_insert_self (acc : List (JSStr × List DataRow)) (k : JSStr)
    (row : DataRow) :
    lookupGroup (insertGrouped acc k row) k =
      some (((lookupGroup acc k).getD []) ++ [row]) := by
  induction acc with
  | nil => simp [insertGrouped, lookupGroup]
  | cons hd t ih =>
      obtain ⟨k₁, rs⟩ := hd
      by_cases h : k₁ = k
      · subst h
        simp [insertGrouped, lookupGroup]
      · simp [insertGrouped, lookupGroup, h, ih]

theorem lookupGroup_insert_ne (acc : List (JSStr × List DataRow)) (k : JSStr)
    (row : DataRow) (k₂ : JSStr) (h : k₂ ≠ k) :
    lookupGroup (insertGrouped acc k row) k₂ = lookupGroup acc k₂ := by
  induction acc with
  | nil => simp [insertGrouped, lookupGroup, Ne.symm h]
  | cons hd t ih =>
      obtain ⟨k₁, rs⟩ := hd
      by_cases h₁ : k₁ = k
      · subst h₁
        have h₂ : ¬k₁ = k₂ := fun hh => h hh.symm
        simp [insertGrouped, lookupGroup, h₂]
      · simp [insertGrouped, lookupGroup, h₁, ih]

theorem groupLoopNew_lookup (mode : Mode) (pc ic sc : JSStr) :
    ∀ (rows : List DataRow) (acc : List (JSStr × List DataRow)) (k : JSStr),
      lookupGroup (groupLoopNew mode pc ic sc acc rows) k =
        (if lookupGroup acc k = none ∧ rows.filter (fun r =>
              !skipRowNew mode pc ic sc r && decide (groupKeyNew mode pc ic r = k)) = []
         then none
         else some (((lookupGroup acc k).getD []) ++ rows.filter (fun r =>
              !skipRowNew mode pc ic sc r && decide (groupKeyNew mode pc ic r = k)))) := by
  intro rows
  induction rows with
  | nil =>
      intro acc k
      simp only [groupLoopNew, List.filter_nil]
      cases lookupGroup acc k <;> simp
  | cons r rest ih =>
      intro acc k
      by_cases hs : skipRowNew mode pc ic sc r
      · have hstep : groupLoopNew mode pc ic sc acc (r :: rest) =
            groupLoopNew mode pc ic sc acc rest := by
          simp [groupLoopNew, hs]
        have hfilt : (r :: rest).filter
              (fun x => !skipRowNew mode pc ic sc x && decide (groupKeyNew mode pc ic x = k)) =
            rest.filter
              (fun x => !skipRowNew mode pc ic sc x && decide (groupKeyNew mode pc ic x = k)) :=
          List.filter_cons_of_neg (by simp [hs])
        rw [hstep, ih acc k, hfilt]
      · have hstep : groupLoopNew mode pc ic sc acc (r :: rest) =
            groupLoopNew mode pc ic sc (insertGrouped acc (groupKeyNew mode pc ic r) r) rest := by
          simp [groupLoopNew, hs]
        by_cases hk : groupKeyNew mode pc ic r = k
        · subst hk
          have hfilt : (r :: rest).filter (fun x => !skipRowNew mode pc ic sc x &&
                decide (groupKeyNew mode pc ic x = groupKeyNew mode pc ic r)) =
              r :: rest.filter (fun x => !skipRowNew mode pc ic sc x &&
                decide (groupKeyNew mode pc ic x = groupKeyNew mode pc ic r)) :=
            List.filter_cons_of_pos (by simp [hs])
          rw [hstep, ih, lookupGroup_insert_self, hfilt]
          rw [if_neg (fun hc => Option.noConfusion hc.1),
              if_neg (fun hc => List.noConfusion hc.2)]
          simp only [Option.getD_some]
          exact congrArg some (by rw [List.append_assoc]; rfl)
        · have hfilt : (r :: rest).filter
                (fun x => !skipRowNew mode pc ic sc x && decide (groupKeyNew mode pc ic x = k)) =
              rest.filter
                (fun x => !skipRowNew mode pc ic sc x && decide (groupKeyNew mode pc ic x = k)) :=
            List.filter_cons_of_neg (by simp [hs, hk])
          rw [hstep, ih, lookupGroup_insert_ne _ _ _ _ (fun h => hk h.symm), hfilt]

/-- C2 (amended).  In the unified pipeline, a parsed row contributes to a
group exactly when its part cell is present and non-blank after
trimming, its serial cell is present and non-blank, and, in invoice
mode, its invoice cell is present and non-blank; the rows accumulated
under each group key are exactly the non-skipped rows with that key, in
input order.  (The `ExcelGeneratorWithUpload.tsx` variant checks only
for `undefined` part/invoice cells, see the counterexample.) -/
theorem c2_grouping_skip :
    (∀ (mode : Mode) (pc ic sc : JSStr) (row : DataRow),
        skipRowNew mode pc ic sc row =
          (blankCell (getField row pc) || blankCell (getField row sc) ||
           (match mode with
            | Mode.invoice => blankCell (getField row ic)
            | Mode.consolidate => false))) ∧
    (∀ (mode : Mode) (pc ic sc : JSStr) (rows : List DataRow) (k : JSStr),
      lookupGroup (groupRowsNew mode pc ic sc rows) k =
        (if rows.filter (fun r =>
             !skipRowNew mode pc ic sc r && decide (groupKeyNew mode pc ic r = k)) = []
         then none
         else some (rows.filter (fun r =>
             !skipRowNew mode pc ic sc r && decide (groupKeyNew mode pc ic r = k))))) := by
  refine ⟨fun _ _ _ _ _ => rfl, ?_⟩
  intro mode pc ic sc rows k
  have h := groupLoopNew_lookup mode pc ic sc rows [] k
  rw [show lookupGroup ([] : List (JSStr × List DataRow)) k = none from rfl] at h
  simp only [eq_self_iff_true, true_and, Option.getD_none, List.nil_append] at h
  exact h

/-- C2, counterexample.  The claim says a row whose serial cell is blank
after trimming contributes to no group.  The
`ExcelGeneratorWithUpload.tsx` grouping engine performs no serial check,
so such a row is accumulated under its part key. -/
theorem c2_counterexample :
    lookupGroup
        (groupRowsOld Mode.consolidate (js "Part") (js "Inv")
          [[(js "Part", CellValue.str (js "P1")), (js "Qty", CellValue.str (js "1")),
            (js "Serial", CellValue.str (js ""))]])
        (js "P1") =
      some [[(js "Part", CellValue.str (js "P1")), (js "Qty", CellValue.str (js "1")),
             (js "Serial", CellValue.str (js ""))]] := by
  decide

/-! # Claim C3: the sheet collection across failing runs -/

/-- C3, counterexample.  The claim says a run ending in an error leaves
the Sheet Collection exactly as before.  In
`ExcelGeneratorWithUpload.tsx`, `processUploadedFile` clears the sheet
list before the file is even read, so a failing decode leaves the
collection empty instead of preserved. -/
theorem c3_counterexample :
    noteIsError (runUploadOld
        ⟨[⟨js "Keep", [buildRowFromSerial (js "S1")]⟩], [], [], none⟩
        (Except.error (js "boom"))).note = true ∧
    (runUploadOld ⟨[⟨js "Keep", [buildRowFromSerial (js "S1")]⟩], [], [], none⟩
        (Except.error (js "boom"))).sheetDataList = [] ∧
    ([⟨js "Keep", [buildRowFromSerial (js "S1")]⟩] : List SheetData) ≠ [] := by
  exact ⟨rfl, rfl, by decide⟩

/-- C3 (amended).  In the unified pipeline the claim holds: an upload run
never mutates the Sheet Collection (in particular a parse error — decode
failure or fewer than two non-empty rows — preserves it), and a
processing run that ends in an error leaves the collection unchanged; it
is only replaced on a fully successful run.  In
`ExcelGeneratorWithUpload.tsx` the collection is instead cleared at the
start of every upload (see the counterexample). -/
theorem c3_collection_preserved :
    (∀ (st : UploadStateNew) (fr : Except JSStr Workbook),
        (runUploadNew st fr).sheetDataList = st.sheetDataList) ∧
    (∀ (st : UploadStateNew) (mode : Mode) (m : Mappings) (validate : Bool),
        noteIsError (runProcessDataNew st mode m validate).note = true →
        (runProcessDataNew st mode m validate).sheetDataList = st.sheetDataList) := by
  constructor
  · intro st fr
    cases fr with
    | error msg => rfl
    | ok wb =>
        obtain ⟨sheets⟩ := wb
        match sheets with
        | [] => rfl
        | [(nm, g)] =>
            simp only [runUploadNew]
            cases hpg : parseGridNew g <;> simp [parseSheetIntoNew, hpg]
        | a :: b :: t => rfl
  · intro st mode m validate
    simp only [runProcessDataNew]
    split
    · intro _
      rfl
    · split
      · intro _
        rfl
      · split
        · intro _
          rfl
        · split
          · intro hcontra
            simp [noteIsError] at hcontra
          · intro hcontra
            simp [noteIsError] at hcontra

/-- C3, witness: a processing run with no parsed rows errors out and the
(empty) collection is unchanged. -/
theorem c3_witness :
    noteIsError (runProcessDataNew ⟨[], [], [], none⟩ Mode.invoice
        ⟨js "P", js "I", js "Q", js "S"⟩ true).note = true ∧
    (runProcessDataNew ⟨[], [], [], none⟩ Mode.invoice
        ⟨js "P", js "I", js "Q", js "S"⟩ true).sheetDataList = [] :=
  ⟨by decide, (c3_collection_preserved.2 ⟨[], [], [], none⟩ Mode.invoice
      ⟨js "P", js "I", js "Q", js "S"⟩ true (by decide)).trans rfl⟩

/-! # Claim C4: the sequence validator -/

theorem validateGroup_foldl_append (gk master : JSStr) :
    ∀ (rest : List JSStr) (acc : List Mismatch),
      rest.foldl (fun errs cur =>
          if cur.length ≠ master.length then errs ++ [⟨gk, cur, Reason.lengthMismatch⟩]
          else if getSequence cur ≠ getSequence master then
            errs ++ [⟨gk, cur, Reason.sequenceMismatch⟩]
          else errs) acc =
        acc ++ rest.filterMap (fun cur =>
          if cur.length ≠ master.length then some ⟨gk, cur, Reason.lengthMismatch⟩
          else if getSequence cur ≠ getSequence master then
            some ⟨gk, cur, Reason.sequenceMismatch⟩
          else none) := by
  intro rest
  induction rest with
  | nil =>
      intro acc
      simp
  | cons cur rest ih =>
      intro acc
      simp only [List.foldl_cons, List.filterMap_cons]
      by_cases h₁ : cur.length ≠ master.length
      · rw [if_pos h₁, if_pos h₁, ih, List.append_assoc]
        rfl
      · by_cases h₂ : getSequence cur ≠ getSequence master
        · rw [if_neg h₁, if_neg h₁, if_pos h₂, if_pos h₂, ih, List.append_assoc]
          rfl
        · rw [if_neg h₁, if_neg h₁, if_neg h₂, if_neg h₂, ih]

theorem stepGroupNew_sheets (validate : Bool) (qc sc : JSStr) (res : ProcessResult)
    (g : JSStr × List DataRow) :
    (stepGroupNew validate qc sc res g).sheets =
      res.sheets ++
        (if 0 < (serialsOfGroupNew qc sc g.2).length then
          [⟨g.1, (serialsOfGroupNew qc sc g.2).map buildRowFromSerial⟩]
         else []) := by
  unfold stepGroupNew
  split <;> rename_i h <;> simp [h]

theorem stepGroupOld_sheets (validate : Bool) (qc sc : JSStr) (res : ProcessResult)
    (g : JSStr × List DataRow) :
    (stepGroupOld validate qc sc res g).sheets =
      res.sheets ++
        (if 0 < (serialsOfGroupOld qc sc g.2).length then
          [⟨g.1, (serialsOfGroupOld qc sc g.2).map buildRowFromSerial⟩]
         else []) := by
  unfold stepGroupOld
  split <;> rename_i h <;> simp [h]

theorem foldlStepNew_sheets (qc sc : JSStr) (v₁ v₂ : Bool) :
    ∀ (groups : List (JSStr × List DataRow)) (r₁ r₂ : ProcessResult),
      r₁.sheets = r₂.sheets →
      (groups.foldl (stepGroupNew v₁ qc sc) r₁).sheets =
        (groups.foldl (stepGroupNew v₂ qc sc) r₂).sheets := by
  intro groups
  induction groups with
  | nil =>
      intro r₁ r₂ h
      simpa using h
  | cons g t ih =>
      intro r₁ r₂ h
      simp only [List.foldl_cons]
      exact ih _ _ (by rw [stepGroupNew_sheets, stepGroupNew_sheets, h])

theorem foldlStepOld_sheets (qc sc : JSStr) (v₁ v₂ : Bool) :
    ∀ (groups : List (JSStr × List DataRow)) (r₁ r₂ : ProcessResult),
      r₁.sheets = r₂.sheets →
      (groups.foldl (stepGroupOld v₁ qc sc) r₁).sheets =
        (groups.foldl (stepGroupOld v₂ qc sc) r₂).sheets := by
  intro groups
  induction groups with
  | nil =>
      intro r₁ r₂ h
      simpa using h
  | cons g t ih =>
      intro r₁ r₂ h
      simp only [List.foldl_cons]
      exact ih _ _ (by rw [stepGroupOld_sheets, stepGroupOld_sheets, h])

/-- C4.  With at least two values, the validator takes the first value
as reference and maps each subsequent value to exactly one diagnostic —
a Length Mismatch when the length differs, else a Sequence Mismatch when
the digit/letter shape differs, else none — in order; groups with fewer
than two values produce no diagnostics; the produced sheets are
identical whether or not validation runs (in both pipeline variants);
and the shape maps ASCII digits to `N` and everything else to `L`. -/
theorem c4_sequence_validator :
    (∀ (gk master : JSStr) (rest : List JSStr),
        validateGroup gk (master :: rest) = rest.filterMap (fun cur =>
          if cur.length ≠ master.length then some ⟨gk, cur, Reason.lengthMismatch⟩
          else if getSequence cur ≠ getSequence master then
            some ⟨gk, cur, Reason.sequenceMismatch⟩
          else none)) ∧
    (∀ (gk : JSStr) (serials : List JSStr), serials.length < 2 → validateGroup gk serials = []) ∧
    (∀ (mode : Mode) (pc ic qc sc : JSStr) (validate : Bool) (rows : List DataRow),
        (processDataNew mode pc ic qc sc validate rows).sheets =
          (processDataNew mode pc ic qc sc false rows).sheets ∧
        (processDataOld mode pc ic qc sc validate rows).sheets =
          (processDataOld mode pc ic qc sc false rows).sheets) ∧
    (∀ s : JSStr, getSequence s = s.map (fun ch => if ch.isDigit then 'N' else 'L')) := by
  refine ⟨?_, ?_, ?_, fun s => rfl⟩
  · intro gk master rest
    unfold validateGroup
    exact (validateGroup_foldl_append gk master rest []).trans (by simp)
  · intro gk serials h
    match serials with
    | [] => rfl
    | [s] => rfl
    | a :: b :: t =>
        exact absurd h (by simp [List.length_cons])
  · intro mode pc ic qc sc validate rows
    exact ⟨foldlStepNew_sheets qc sc validate false _ _ _ rfl,
           foldlStepOld_sheets qc sc validate false _ _ _ rfl⟩

/-- C4, witness: a one-value group yields no diagnostics, via the
fewer-than-two clause. -/
theorem c4_witness :
    ([js "AB12"] : List JSStr).length < 2 ∧ validateGroup (js "G") [js "AB12"] = [] :=
  ⟨by decide, c4_sequence_validator.2.1 (js "G") [js "AB12"] (by decide)⟩

/-! # Claim C5: duplicate sheet-name disambiguation -/

theorem digitVal_digitChar (d : Nat) (h : d < 10) : digitVal (Nat.digitChar d) = d := by
  interval_cases d <;> rfl

theorem natDigitsRev_lt_ten : ∀ (fuel n : Nat), ∀ d ∈ natDigitsRev fuel n, d < 10 := by
  intro fuel
  induction fuel with
  | zero =>
      intro n d hd
      simp [natDigitsRev] at hd
  | succ f ih =>
      intro n d hd
      by_cases h0 : n = 0
      · simp [natDigitsRev, h0] at hd
      · rw [show natDigitsRev (f + 1) n = n % 10 :: natDigitsRev f (n / 10) from by
            simp [natDigitsRev, h0]] at hd
        rcases List.mem_cons.mp hd with h | h
        · rw [h]
          exact Nat.mod_lt _ (by norm_num)
        · exact ih _ _ h

/-- Read a little-endian digit list back into a natural number. -/
def ofDigitsVals : List Nat → Nat
  | [] => 0
  | d :: t => d + 10 * ofDigitsVals t

theorem ofDigitsVals_natDigitsRev : ∀ (fuel n : Nat), n ≤ fuel →
    ofDigitsVals (natDigitsRev fuel n) = n := by
  intro fuel
  induction fuel with
  | zero =>
      intro n h
      rw [Nat.le_zero.mp h]
      rfl
  | succ f ih =>
      intro n h
      by_cases h0 : n = 0
      · rw [h0]
        rfl
      · rw [show natDigitsRev (f + 1) n = n % 10 :: natDigitsRev f (n / 10) from by
            simp [natDigitsRev, h0]]
        show n % 10 + 10 * ofDigitsVals (natDigitsRev f (n / 10)) = n
        have hdiv : n / 10 ≤ f := by
          have h1 : n / 10 < n := Nat.div_lt_self (Nat.pos_of_ne_zero h0) (by norm_num)
          omega
        rw [ih _ hdiv]
        exact Nat.mod_add_div n 10

theorem natDigitsVals_inj {m n : Nat} (h : natDigitsVals m = natDigitsVals n) : m = n := by
  have hm := ofDigitsVals_natDigitsRev m m le_rfl
  have hn := ofDigitsVals_natDigitsRev n n le_rfl
  rw [← hm, ← hn]
  show ofDigitsVals (natDigitsVals m) = ofDigitsVals (natDigitsVals n)
  rw [h]

theorem map_digitChar_inj : ∀ (l₁ l₂ : List Nat), (∀ d ∈ l₁, d < 10) → (∀ d ∈ l₂, d < 10) →
    l₁.map Nat.digitChar = l₂.map Nat.digitChar → l₁ = l₂ := by
  intro l₁
  induction l₁ with
  | nil =>
      intro l₂ _ _ h
      cases l₂ with
      | nil => rfl
      | cons b t => simp at h
  | cons a t ih =>
      intro l₂ h₁ h₂ h
      cases l₂ with
      | nil => simp at h
      | cons b t₂ =>
          simp only [List.map_cons, List.cons.injEq] at h
          have ha : a = b := by
            have hv : digitVal (Nat.digitChar a) = digitVal (Nat.digitChar b) := by rw [h.1]
            rwa [digitVal_digitChar a (h₁ a (List.mem_cons_self a t)),
                 digitVal_digitChar b (h₂ b (List.mem_cons_self b t₂))] at hv
          rw [ha, ih t₂ (fun d hd => h₁ d (List.mem_cons_of_mem a hd))
              (fun d hd => h₂ d (List.mem_cons_of_mem b hd)) h.2]

theorem natToChars_of_ne_zero {n : Nat} (h : n ≠ 0) :
    natToChars n = ((natDigitsVals n).map Nat.digitChar).reverse := by
  simp [natToChars, h]

theorem natToChars_inj {m n : Nat} (h : natToChars m = natToChars n) : m = n := by
  by_cases hm : m = 0 <;> by_cases hn : n = 0
  · rw [hm, hn]
  · exfalso
    rw [hm, natToChars_of_ne_zero hn] at h
    have h₁ : (natDigitsVals n).map Nat.digitChar = ['0'] := by
      have := congrArg List.reverse h
      simpa [natToChars] using this.symm
    have h₂ : natDigitsVals n = [0] :=
      map_digitChar_inj _ _ (natDigitsRev_lt_ten _ _) (by simp) (by rw [h₁]; rfl)
    have h₃ := ofDigitsVals_natDigitsRev n n le_rfl
    rw [show natDigitsRev n n = natDigitsVals n from rfl, h₂] at h₃
    exact hn (by simpa [ofDigitsVals] using h₃.symm)
  · exfalso
    rw [hn, natToChars_of_ne_zero hm] at h
    have h₁ : (natDigitsVals m).map Nat.digitChar = ['0'] := by
      have := congrArg List.reverse h
      simpa [natToChars] using this
    have h₂ : natDigitsVals m = [0] :=
      map_digitChar_inj _ _ (natDigitsRev_lt_ten _ _) (by simp) (by rw [h₁]; rfl)
    have h₃ := ofDigitsVals_natDigitsRev m m le_rfl
    rw [show natDigitsRev m m = natDigitsVals m from rfl, h₂] at h₃
    exact hm (by simpa [ofDigitsVals] using h₃.symm)
  · rw [natToChars_of_ne_zero hm, natToChars_of_ne_zero hn] at h
    have h' := List.reverse_injective h
    exact natDigitsVals_inj
      (map_digitChar_inj _ _ (natDigitsRev_lt_ten _ _) (natDigitsRev_lt_ten _ _) h')

theorem nameWithSuffix_inj (base : JSStr) {m n : Nat}
    (h : nameWithSuffix base m = nameWithSuffix base n) : m = n := by
  unfold nameWithSuffix at h
  by_cases hm : m = 0 <;> by_cases hn : n = 0
  · omega
  · exfalso
    rw [if_pos hm, if_neg hn] at h
    have hlen := congrArg List.length h
    rw [List.length_append, List.length_append, List.length_append] at hlen
    rw [show (js " (").length = 2 from rfl, show (js ")").length = 1 from rfl] at hlen
    omega
  · exfalso
    rw [if_neg hm, if_pos hn] at h
    have hlen := congrArg List.length h
    rw [List.length_append, List.length_append, List.length_append] at hlen
    rw [show (js " (").length = 2 from rfl, show (js ")").length = 1 from rfl] at hlen
    omega
  · rw [if_neg hm, if_neg hn] at h
    rw [List.append_assoc, List.append_assoc, List.append_assoc, List.append_assoc] at h
    have h₁ := List.append_cancel_left h
    have h₂ := List.append_cancel_left h₁
    exact natToChars_inj (List.append_cancel_right h₂)

theorem exists_free_suffix (existing : List JSStr) (base : JSStr) :
    ∃ n, n ≤ existing.length ∧ nameWithSuffix base n ∉ existing := by
  by_contra hc
  push_neg at hc
  have hsub : ∀ x ∈ (List.range (existing.length + 1)).map (nameWithSuffix base),
      x ∈ existing := by
    intro x hx
    rcases List.mem_map.mp hx with ⟨n, hn, rfl⟩
    exact hc n (Nat.lt_succ_iff.mp (List.mem_range.mp hn))
  have hnodup : ((List.range (existing.length + 1)).map (nameWithSuffix base)).Nodup :=
    (List.nodup_range _).map_on (fun x _ y _ hxy => nameWithSuffix_inj base hxy)
  have hlen : existing.length + 1 ≤ existing.length := by
    calc existing.length + 1
        = ((List.range (existing.length + 1)).map (nameWithSuffix base)).toFinset.card := by
          rw [List.toFinset_card_of_nodup hnodup]
          simp
      _ ≤ existing.toFinset.card :=
          Finset.card_le_card
            (fun x hx => List.mem_toFinset.mpr (hsub x (List.mem_toFinset.mp hx)))
      _ ≤ existing.length := existing.toFinset_card_le
  omega

theorem firstFreeSuffix_spec (existing : List JSStr) (base : JSStr) :
    ∀ (fuel start : Nat),
      (∃ k, k < fuel ∧ nameWithSuffix base (start + k) ∉ existing) →
      nameWithSuffix base (firstFreeSuffix existing base fuel start) ∉ existing ∧
      start ≤ firstFreeSuffix existing base fuel start ∧
      (∀ m, start ≤ m → m < firstFreeSuffix existing base fuel start →
        nameWithSuffix base m ∈ existing) := by
  intro fuel
  induction fuel with
  | zero =>
      intro start h
      rcases h with ⟨k, hk, _⟩
      omega
  | succ f ih =>
      intro start h
      by_cases hmem : nameWithSuffix base start ∈ existing
      · have hrw : firstFreeSuffix existing base (f + 1) start =
            firstFreeSuffix existing base f (start + 1) := by
          simp [firstFreeSuffix, hmem]
        have hex : ∃ k, k < f ∧ nameWithSuffix base (start + 1 + k) ∉ existing := by
          rcases h with ⟨k, hk, hfree⟩
          match k with
          | 0 => exact absurd hmem (by simpa using hfree)
          | k + 1 =>
              exact ⟨k, by omega, by
                rw [show start + 1 + k = start + (k + 1) from by omega]
                exact hfree⟩
        have hs := ih (start + 1) hex
        refine ⟨by rw [hrw]; exact hs.1, by rw [hrw]; omega, ?_⟩
        intro m hm₁ hm₂
        rw [hrw] at hm₂
        rcases Nat.eq_or_lt_of_le hm₁ with he | hlt
        · rw [← he]
          exact hmem
        · exact hs.2.2 m hlt hm₂
      · have hrw : firstFreeSuffix existing base (f + 1) start = start := by
          simp [firstFreeSuffix, hmem]
        rw [hrw]
        exact ⟨hmem, le_rfl, fun m hm₁ hm₂ => absurd hm₂ (by omega)⟩

theorem uniqueSheetName_spec (existing : List JSStr) (base : JSStr) :
    uniqueSheetName existing base ∉ existing ∧
    ∃ n, uniqueSheetName existing base = nameWithSuffix base n ∧
      ∀ m, m < n → nameWithSuffix base m ∈ existing := by
  obtain ⟨k, hk, hfree⟩ := exists_free_suffix existing base
  have h := firstFreeSuffix_spec existing base (existing.length + 1) 0
    ⟨k, by omega, by simpa using hfree⟩
  exact ⟨h.1, firstFreeSuffix existing base (existing.length + 1) 0, rfl,
    fun m hm => h.2.2 m (Nat.zero_le m) hm⟩

theorem uniquifySheets_nodup :
    ∀ (fs : List SheetData) (existing : List JSStr), existing.Nodup →
      ((uniquifySheets existing fs).map SheetData.sheetName ++ existing).Nodup := by
  intro fs
  induction fs with
  | nil =>
      intro existing h
      simpa [uniquifySheets] using h
  | cons s rest ih =>
      intro existing h
      have hfree := (uniqueSheetName_spec existing s.sheetName).1
      have hrec := ih (uniqueSheetName existing s.sheetName :: existing)
        (List.nodup_cons.mpr ⟨hfree, h⟩)
      have hperm := List.perm_middle.nodup hrec
      simpa [uniquifySheets] using hperm

/-- C5 (amended).  In the unified pipeline's append, the assigned name is
the base name carrying the smallest suffix number whose candidate is not
yet taken, the assigned name is registered so later appends of the same
batch see it (hence names stay pairwise distinct), and appending
`Batch A` twice onto a collection holding `Batch A` stores
`Batch A (1)` then `Batch A (2)`.  The manual append of
`SerialExtractor.tsx` performs no disambiguation (see the
counterexample). -/
theorem c5_name_disambiguation :
    (∀ (existing : List JSStr) (base : JSStr),
        uniqueSheetName existing base ∉ existing ∧
        ∃ n, uniqueSheetName existing base = nameWithSuffix base n ∧
          ∀ m, m < n → nameWithSuffix base m ∈ existing) ∧
    (∀ (prev finalSheets : List SheetData),
        (prev.map SheetData.sheetName).Nodup →
        ((appendSheetsUnique prev finalSheets).map SheetData.sheetName).Nodup) ∧
    uniquifySheets [js "Batch A"] [⟨js "Batch A", []⟩, ⟨js "Batch A", []⟩] =
      [⟨js "Batch A (1)", []⟩, ⟨js "Batch A (2)", []⟩] := by
  refine ⟨uniqueSheetName_spec, ?_, by decide⟩
  intro prev fs h
  have hnd := uniquifySheets_nodup fs (prev.map SheetData.sheetName) h
  have hswap := List.perm_append_comm.nodup hnd
  simpa [appendSheetsUnique, List.map_append] using hswap

/-- C5, counterexample.  Appending a sheet named `Batch A` through
`SerialExtractor.tsx`'s `handleAddOrUpdateSheet` when a sheet of that
name already exists stores the colliding name unchanged, not
`Batch A (1)`. -/
theorem c5_counterexample :
    ((handleAddOrUpdateSheetSE ⟨[⟨js "Batch A", [buildRowFromSerial (js "X")]⟩], none⟩
        (js "S1") (js "Batch A") 0 false false).sheetDataList.map SheetData.sheetName) =
      [js "Batch A", js "Batch A"] := by
  decide

/-- C5, witness: the disambiguation clauses applied to the `Batch A`
example. -/
theorem c5_witness :
    uniqueSheetName [js "Batch A"] (js "Batch A") = js "Batch A (1)" ∧
    uniqueSheetName [js "Batch A"] (js "Batch A") ∉ [js "Batch A"] :=
  ⟨by decide, (c5_name_disambiguation.1 [js "Batch A"] (js "Batch A")).1⟩

/-! # Claim C6: record builder mode invariant -/

/-- C6.  Both record builders agree; in serial mode every record has an
empty `Lot No.` and carries its input value in `Serial No.`, in lot mode
the other way round, so at most one identity field is non-empty, and the
populated field is non-empty whenever the input value is. -/
theorem c6_record_invariant :
    ∀ (lotOnlyMode : Bool) (entries : List JSStr),
      buildSheetDataFromText lotOnlyMode entries = buildSheetData lotOnlyMode entries ∧
      ∀ r ∈ buildSheetData lotOnlyMode entries,
        (r.serialNo = js "" ∨ r.lotNo = js "") ∧
        (lotOnlyMode = false → r.lotNo = js "" ∧ r.serialNo ∈ entries) ∧
        (lotOnlyMode = true → r.serialNo = js "" ∧ r.lotNo ∈ entries) ∧
        ((∀ v ∈ entries, v ≠ js "") →
          (if lotOnlyMode then r.lotNo else r.serialNo) ≠ js "") := by
  intro mode entries
  constructor
  · exact congrArg (fun f => List.map f entries)
      (funext fun value => by cases mode <;> rfl)
  · intro r hr
    rcases List.mem_map.mp hr with ⟨v, hv, rfl⟩
    cases mode with
    | false =>
        exact ⟨Or.inr rfl, fun _ => ⟨rfl, hv⟩, fun hc => Bool.noConfusion hc,
          fun hne => hne v hv⟩
    | true =>
        exact ⟨Or.inl rfl, fun hc => Bool.noConfusion hc, fun _ => ⟨rfl, hv⟩,
          fun hne => hne v hv⟩

/-- C6, witness: the serial-mode clauses applied to a singleton build. -/
theorem c6_witness :
    buildRowFromSerial (js "SN1") ∈ buildSheetData false [js "SN1"] ∧
    (buildRowFromSerial (js "SN1")).lotNo = js "" ∧
    (buildRowFromSerial (js "SN1")).serialNo ∈ [js "SN1"] := by
  have hmem : buildRowFromSerial (js "SN1") ∈ buildSheetData false [js "SN1"] := by decide
  have h := ((c6_record_invariant false [js "SN1"]).2 _ hmem).2.1 rfl
  exact ⟨hmem, h.1, h.2⟩

/-! # Claim C7: tokenizer counts -/

/-- C7.  The tokenizer yields one Raw Row per retained line; with the
header flag off it keeps every line that is non-blank after trimming,
with the flag on it keeps one fewer (zero when there were none); blank
lines never produce rows; and the retained lines keep their original
order. -/
theorem c7_tokenizer :
    ∀ (rawText : JSStr) (hasHeader : Bool),
      (rawRows rawText hasHeader).length = (slicedLines rawText hasHeader).length ∧
      (slicedLines rawText false).length = (splitLines rawText).length ∧
      (slicedLines rawText true).length = (splitLines rawText).length - 1 ∧
      (∀ l ∈ slicedLines rawText hasHeader, jsTrim l ≠ []) ∧
      (slicedLines rawText hasHeader).Sublist (splitOnChar '\n' rawText) := by
  intro rawText hasHeader
  refine ⟨List.length_map _ _, rfl, List.length_drop 1 _, ?_, ?_⟩
  · intro l hl
    have hl' : l ∈ splitLines rawText := by
      cases hasHeader with
      | false => exact hl
      | true => exact List.mem_of_mem_drop hl
    have hp := List.of_mem_filter hl'
    intro hcontra
    rw [hcontra] at hp
    simp at hp
  · cases hasHeader with
    | false => exact List.filter_sublist _
    | true => exact (List.drop_sublist 1 _).trans (List.filter_sublist _)

/-- C7, witness: a three-line input with one blank line, with the header
flag on. -/
theorem c7_witness :
    (slicedLines (js "a\n\nb") true).length = (splitLines (js "a\n\nb")).length - 1 ∧
    jsTrim (js "b") ≠ [] :=
  ⟨(c7_tokenizer (js "a\n\nb") true).2.2.1,
   (c7_tokenizer (js "a\n\nb") true).2.2.2.1 (js "b") (by decide)⟩

/-! # Claim C8: extraction totality -/

/-- C8.  Extracting column `i` from a row with fewer than `i + 1` fields
yields `none` (the extractor is total), and every produced entry is
non-empty and originates from a retained line — absent or
empty-after-trimming values never yield placeholder entries. -/
theorem c8_extraction :
    (∀ (line : JSStr) (i : Nat),
        (splitFields line).length ≤ i → extractEntry line i = none) ∧
    (∀ (rawText : JSStr) (hasHeader : Bool) (i : Nat) (e : JSStr),
        e ∈ manualEntries rawText hasHeader i →
        e ≠ [] ∧ ∃ line ∈ slicedLines rawText hasHeader, extractEntry line i = some e) := by
  constructor
  · intro line i h
    unfold extractEntry
    rw [List.get?_eq_none.mpr h]
    rfl
  · intro rawText hasHeader i e he
    rcases List.mem_filterMap.mp he with ⟨line, hline, hf⟩
    cases hx : extractEntry line i with
    | none =>
        simp only [hx] at hf
        exact Option.noConfusion hf
    | some v =>
        simp only [hx] at hf
        by_cases hv : v.isEmpty
        · rw [if_pos hv] at hf
          exact absurd hf (by simp)
        · rw [if_neg hv] at hf
          have hev : v = e := Option.some.inj hf
          refine ⟨?_, line, hline, ?_⟩
          · rw [← hev]
            simpa [List.isEmpty_iff] using hv
          · rw [hx, hev]

/-- C8, witness: an out-of-range extraction yields `none`, and the entry
extracted from column 1 of a comma-separated line is non-empty with its
source line. -/
theorem c8_witness :
    ((splitFields (js "a,b")).length ≤ 5 ∧ extractEntry (js "a,b") 5 = none) ∧
    (js "b" ≠ [] ∧ ∃ line ∈ slicedLines (js "a,b") false, extractEntry line 1 = some (js "b")) :=
  ⟨⟨by decide, c8_extraction.1 (js "a,b") 5 (by decide)⟩,
   c8_extraction.2 (js "a,b") false 1 (js "b") (by decide)⟩

/-! # Claim C9: export summary -/

/-- C9.  A non-empty collection exports one summary row per sheet, in
collection order, pairing each sheet's name with its record count, and
one table per sheet under the name truncated to at most 31 characters. -/
theorem c9_export :
    ∀ (list : List SheetData) (e : ExportResult), handleExport list = some e →
      e.summary.length = list.length ∧
      e.sheetTables.length = list.length ∧
      (∀ (i : Nat) (hi : i < list.length),
          e.summary.get? i =
            some ((list.get ⟨i, hi⟩).sheetName, (list.get ⟨i, hi⟩).data.length) ∧
          e.sheetTables.get? i =
            some (jsSubstring (list.get ⟨i, hi⟩).sheetName 31, (list.get ⟨i, hi⟩).data)) ∧
      (∀ p ∈ e.sheetTables, p.1.length ≤ 31) := by
  intro list e he
  unfold handleExport at he
  by_cases hl : list.isEmpty
  · rw [if_pos hl] at he
    exact Option.noConfusion he
  · rw [if_neg hl] at he
    obtain rfl := Option.some.inj he
    refine ⟨List.length_map _ _, List.length_map _ _, ?_, ?_⟩
    · intro i hi
      constructor
      · show (list.map (fun s => (s.sheetName, s.data.length))).get? i = _
        rw [List.get?_map, List.get?_eq_get hi]
        rfl
      · show (list.map (fun s => (jsSubstring s.sheetName 31, s.data))).get? i = _
        rw [List.get?_map, List.get?_eq_get hi]
        rfl
    · intro p hp
      rcases List.mem_map.mp hp with ⟨s, _, rfl⟩
      show (jsSubstring s.sheetName 31).length ≤ 31
      unfold jsSubstring
      rw [List.length_take]
      exact min_le_left _ _

/-- C9, witness: a collection with sheets of sizes 3 and 5 exports
exactly two summary rows with counts 3 and 5. -/
theorem c9_witness :
    handleExport
        [⟨js "A", List.replicate 3 (buildRowFromSerial (js "x"))⟩,
         ⟨js "B", List.replicate 5 (buildRowFromSerial (js "y"))⟩] =
      some ⟨[(js "A", 3), (js "B", 5)],
            [(js "A", List.replicate 3 (buildRowFromSerial (js "x"))),
             (js "B", List.replicate 5 (buildRowFromSerial (js "y")))]⟩ ∧
    ([(js "A", 3), (js "B", 5)] : List (JSStr × Nat)).length = 2 := by
  refine ⟨by decide, ?_⟩
  exact (c9_export
    [⟨js "A", List.replicate 3 (buildRowFromSerial (js "x"))⟩,
     ⟨js "B", List.replicate 5 (buildRowFromSerial (js "y"))⟩]
    ⟨[(js "A", 3), (js "B", 5)],
     [(js "A", List.replicate 3 (buildRowFromSerial (js "x"))),
      (js "B", List.replicate 5 (buildRowFromSerial (js "y")))]⟩ (by decide)).1

/-! # Claim C10: every file-path record is serial-mode -/

theorem foldlStepNew_sheets_mem (validate : Bool) (qc sc : JSStr) :
    ∀ (groups : List (JSStr × List DataRow)) (res : ProcessResult) (sh : SheetData),
      sh ∈ (groups.foldl (stepGroupNew validate qc sc) res).sheets →
      sh ∈ res.sheets ∨
        ∃ gk rowsg, sh = ⟨gk, (serialsOfGroupNew qc sc rowsg).map buildRowFromSerial⟩ := by
  intro groups
  induction groups with
  | nil =>
      intro res sh h
      exact Or.inl h
  | cons g t ih =>
      intro res sh h
      simp only [List.foldl_cons] at h
      rcases ih _ sh h with hmem | hex
      · rw [stepGroupNew_sheets] at hmem
        rcases List.mem_append.mp hmem with h₁ | h₂
        · exact Or.inl h₁
        · right
          by_cases hc : 0 < (serialsOfGroupNew qc sc g.2).length
          · rw [if_pos hc] at h₂
            exact ⟨g.1, g.2, List.mem_singleton.mp h₂⟩
          · rw [if_neg hc] at h₂
            exact absurd h₂ (List.not_mem_nil sh)
      · exact Or.inr hex

theorem foldlStepOld_sheets_mem (validate : Bool) (qc sc : JSStr) :
    ∀ (groups : List (JSStr × List DataRow)) (res : ProcessResult) (sh : SheetData),
      sh ∈ (groups.foldl (stepGroupOld validate qc sc) res).sheets →
      sh ∈ res.sheets ∨
        ∃ gk rowsg, sh = ⟨gk, (serialsOfGroupOld qc sc rowsg).map buildRowFromSerial⟩ := by
  intro groups
  induction groups with
  | nil =>
      intro res sh h
      exact Or.inl h
  | cons g t ih =>
      intro res sh h
      simp only [List.foldl_cons] at h
      rcases ih _ sh h with hmem | hex
      · rw [stepGroupOld_sheets] at hmem
        rcases List.mem_append.mp hmem with h₁ | h₂
        · exact Or.inl h₁
        · right
          by_cases hc : 0 < (serialsOfGroupOld qc sc g.2).length
          · rw [if_pos hc] at h₂
            exact ⟨g.1, g.2, List.mem_singleton.mp h₂⟩
          · rw [if_neg hc] at h₂
            exact absurd h₂ (List.not_mem_nil sh)
      · exact Or.inr hex

/-- C10.  Every record of every sheet produced by either file-upload
pipeline is built by `buildRowFromSerial`: its `Lot No.` is the empty
string and its `Serial No.` carries the extracted value, regardless of
mode, column selection or the validation flag. -/
theorem c10_serial_mode_records :
    ∀ (mode : Mode) (pc ic qc sc : JSStr) (validate : Bool) (rows : List DataRow)
      (sh : SheetData) (r : RowData),
      (sh ∈ (processDataNew mode pc ic qc sc validate rows).sheets → r ∈ sh.data →
        r.lotNo = js "" ∧ r = buildRowFromSerial r.serialNo) ∧
      (sh ∈ (processDataOld mode pc ic qc sc validate rows).sheets → r ∈ sh.data →
        r.lotNo = js "" ∧ r = buildRowFromSerial r.serialNo) := by
  intro mode pc ic qc sc validate rows sh r
  constructor
  · intro hsh hr
    rcases foldlStepNew_sheets_mem validate qc sc _ _ _ hsh with hmem | ⟨gk, rowsg, rfl⟩
    · exact absurd hmem (List.not_mem_nil sh)
    · rcases List.mem_map.mp hr with ⟨s, _, rfl⟩
      exact ⟨rfl, rfl⟩
  · intro hsh hr
    rcases foldlStepOld_sheets_mem validate qc sc _ _ _ hsh with hmem | ⟨gk, rowsg, rfl⟩
    · exact absurd hmem (List.not_mem_nil sh)
    · rcases List.mem_map.mp hr with ⟨s, _, rfl⟩
      exact ⟨rfl, rfl⟩

/-- C10, witness: the end-to-end invoice-mode scenario — two unit
quantity rows survive, the quantity-2 row is dropped, and the produced
records are serial-mode. -/
theorem c10_witness :
    (⟨js "P1 - I1",
      [buildRowFromSerial (js "SN001"), buildRowFromSerial (js "SN002")]⟩ : SheetData) ∈
      (processDataNew Mode.invoice (js "part") (js "inv") (js "qty") (js "serial") true
        [[(js "part", CellValue.str (js "P1")), (js "inv", CellValue.str (js "I1")),
          (js "qty", CellValue.str (js "1")), (js "serial", CellValue.str (js "SN001"))],
         [(js "part", CellValue.str (js "P1")), (js "inv", CellValue.str (js "I1")),
          (js "qty", CellValue.str (js "1")), (js "serial", CellValue.str (js "SN002"))],
         [(js "part", CellValue.str (js "P1")), (js "inv", CellValue.str (js "I1")),
          (js "qty", CellValue.str (js "2")), (js "serial", CellValue.str (js "SN999"))]]).sheets ∧
    (buildRowFromSerial (js "SN001")).lotNo = js "" := by
  have hmem : (⟨js "P1 - I1",
      [buildRowFromSerial (js "SN001"), buildRowFromSerial (js "SN002")]⟩ : SheetData) ∈
      (processDataNew Mode.invoice (js "part") (js "inv") (js "qty") (js "serial") true
        [[(js "part", CellValue.str (js "P1")), (js "inv", CellValue.str (js "I1")),
          (js "qty", CellValue.str (js "1")), (js "serial", CellValue.str (js "SN001"))],
         [(js "part", CellValue.str (js "P1")), (js "inv", CellValue.str (js "I1")),
          (js "qty", CellValue.str (js "1")), (js "serial", CellValue.str (js "SN002"))],
         [(js "part", CellValue.str (js "P1")), (js "inv", CellValue.str (js "I1")),
          (js "qty", CellValue.str (js "2")), (js "serial", CellValue.str (js "SN999"))]]).sheets := by
    decide
  have hdat : buildRowFromSerial (js "SN001") ∈
      (⟨js "P1 - I1",
        [buildRowFromSerial (js "SN001"), buildRowFromSerial (js "SN002")]⟩ : SheetData).data := by
    decide
  exact ⟨hmem,
    ((c10_serial_mode_records Mode.invoice (js "part") (js "inv") (js "qty") (js "serial")
        true _ _ _).1 hmem hdat).1⟩

end ExcelFmt
